import Mathlib

/-!
Shallow embedding of the wienans/vsc-opencode-zen-chat-provider extension
(chat protocol adapter between the VS Code language-model API and streaming
LLM backends), together with proofs about the embedded operations.

Source files embedded here:
- `src/modelRegistry.ts` (model capability registry: cache TTL decision),
- `src/provider.ts` (tool-name adapter, message translator, prompt-cache
  annotator, token estimate),
- `src/zenClient.ts` (streaming response adapter, error classification),
- `src/extension.ts` (bounded self-test tool round-trip driver).

JavaScript strings are modelled as Lean `String`; where the source relies on
character-level operations (regex character classes, `slice`, `includes`,
`toLowerCase`, `trim`, `endsWith`) the embedding works on `String.toList`,
which keeps every definition executable and kernel-reducible.  JavaScript
`Map` objects are modelled as association lists whose most recent `set`
binding is found first by `List.lookup`.
-/

namespace OpenCodeZen

/-! ## String helpers (JS character-level operations) -/

/-- JS `haystack.includes(pat)`: `pat` occurs contiguously in `haystack`. -/
def strIncludes (haystack pat : String) : Bool :=
  (List.range (haystack.toList.length + 1)).any
    (fun i => (haystack.toList.drop i).take pat.toList.length == pat.toList)

/-- JS `s.slice(0, n)` on a string: keep the first `n` characters. -/
def sliceTo (s : String) (n : Nat) : String :=
  String.mk (s.toList.take n)

/-- Whether `l` starts with `p` (JS `String.prototype.startsWith` on the
character lists of the two strings). -/
def listStartsWith (l p : List Char) : Bool :=
  l.take p.length == p

/-- JS `s.startsWith(p)`. -/
def strStartsWith (s p : String) : Bool :=
  listStartsWith s.toList p.toList

/-- JS `s.endsWith(p)`. -/
def strEndsWith (s p : String) : Bool :=
  listStartsWith s.toList.reverse p.toList.reverse

/-- JS `s.toLowerCase()` (ASCII case folding is all the source needs). -/
def strToLower (s : String) : String :=
  String.mk (s.toList.map Char.toLower)

/-- JS `s.trim()`: strip leading and trailing whitespace. -/
def strTrim (s : String) : String :=
  String.mk ((s.toList.dropWhile Char.isWhitespace).reverse.dropWhile
    Char.isWhitespace).reverse

/-! ## Model Capability Registry (`src/modelRegistry.ts`, `getModels`)

`ModelRegistry.getModels` computes
`ttlMs = Math.max(0, ttlMinutes) * 60_000` and returns the cached model list
when `!options.force && this.cachedModels && this.cachedAtMs !== undefined`
and `ttlMs === 0 || now - this.cachedAtMs < ttlMs`; otherwise it refetches
from the metadata feed.  The decision is a pure function of the listed
inputs, embedded below. -/

/-- The `ttlMs` computation of `getModels`: `Math.max(0, ttlMinutes) * 60_000`. -/
def ttlMsOf (ttlMinutes : Int) : Int :=
  max 0 ttlMinutes * 60000

/-- The cache-hit decision of `ModelRegistry.getModels`: `true` exactly when
the cached model list is returned without contacting the metadata feed.
`hasCachedModels` stands for `this.cachedModels` being set and `cachedAtMs`
for `this.cachedAtMs` (`none` = `undefined`). -/
def usesCachedModels (force : Bool) (hasCachedModels : Bool)
    (cachedAtMs : Option Int) (ttlMinutes : Int) (now : Int) : Bool :=
  !force && hasCachedModels &&
    match cachedAtMs with
    | some t => (ttlMsOf ttlMinutes == 0) || decide (now - t < ttlMsOf ttlMinutes)
    | none => false

/-! ## Error classification (`src/zenClient.ts`, `wrapApiError`) -/

/-- Classification of a terminal stream error. -/
inductive ChatErrorKind
  | unauthorized
  | modelNotFound
  | generic
  deriving DecidableEq

/-- A classified terminal error: its kind and user-facing message. -/
structure ChatError where
  kind : ChatErrorKind
  message : String
  deriving DecidableEq

/-- Message of the wrapped `Unauthorized` error. -/
def unauthorizedMessage : String :=
  "Unauthorized: Please check your OpenCode API key. Run \"OpenCode Zen: Set API Key\" to update it."

/-- Message of the wrapped `Model not found` error. -/
def modelNotFoundMessage : String :=
  "Model not found. The requested model may not be available."

/-- `wrapApiError` from `src/zenClient.ts`, restricted to the classification
of the base message (`err.message`); the diagnostic fields scraped from the
error object are orthogonal to the classification. -/
def wrapApiError (baseMessage : String) : ChatError :=
  if strIncludes baseMessage "Unauthorized" || strIncludes baseMessage "401" then
    ChatError.mk ChatErrorKind.unauthorized unauthorizedMessage
  else if strIncludes baseMessage "404" || strIncludes baseMessage "Not Found" then
    ChatError.mk ChatErrorKind.modelNotFound modelNotFoundMessage
  else
    ChatError.mk ChatErrorKind.generic baseMessage

/-! ## Token estimate (`src/provider.ts`, `provideTokenCount`) -/

/-- Input of `provideTokenCount`: either a plain string, or a chat request
message whose `content` has already been serialized by `JSON.stringify`. -/
inductive TokenCountText
  | plain (s : String)
  | message (serializedContent : String)
  deriving DecidableEq

/-- The `serialized` local of `provideTokenCount`:
`typeof text === 'string' ? text : JSON.stringify(text.content)`. -/
def serializedOf : TokenCountText → String
  | TokenCountText.plain s => s
  | TokenCountText.message s => s

/-- `provideTokenCount`: `Math.max(1, Math.ceil(serialized.length / 4))`.
On naturals, `Math.ceil(n / 4)` is `(n + 3) / 4`. -/
def provideTokenCount (text : TokenCountText) : Nat :=
  max 1 (((serializedOf text).length + 3) / 4)

/-! ## Tool Name Adapter (`src/provider.ts`, `sanitizeToolName` /
`buildToolNameMap`) -/

/-- `sanitizeToolName`: characters outside `[a-zA-Z0-9_-]` are replaced with
`'_'` (the regex replace), the result is truncated to 128 characters, and an
empty result falls back to the literal `"tool"`. -/
def sanitizeToolName (name : String) : String :=
  let cleaned := String.mk (name.toList.map fun c =>
    if c.isAlpha || c.isDigit || c == '_' || c == '-' then c else '_')
  if cleaned.length > 0 then sliceTo cleaned 128 else "tool"

/-- One collision-suffix attempt of `buildToolNameMap`:
the template string of `baseName`, `'_'` and the suffix counter, re-truncated
to 128 characters by `slice(0, 128)`. -/
def suffixCandidate (baseName : String) (suffix : Nat) : String :=
  sliceTo (baseName ++ "_" ++ toString suffix) 128

/-- The `while (used.has(name))` loop of `buildToolNameMap`, with explicit
fuel standing for the number of loop iterations the JS loop performs; `none`
when the fuel is exhausted before an unused name is found (the JS loop would
still be running). -/
def pickUnusedName (used : List String) (baseName : String) :
    String → Nat → Nat → Option String
  | name, _, 0 => if used.contains name then none else some name
  | name, suffix, fuel + 1 =>
    if used.contains name then
      pickUnusedName used baseName (suffixCandidate baseName suffix) (suffix + 1) fuel
    else some name

/-- The `for (const tool of tools)` loop of `buildToolNameMap`: walks the
tool names, resolving collisions against `used` and accumulating the forward
(`toProvider`) and inverse (`toVsCode`) association lists in tool order. -/
def buildToolNameMapGo (needsSanitize : Bool) (fuel : Nat) :
    List String → List String →
    Option (List (String × String) × List (String × String))
  | [], _ => some ([], [])
  | toolName :: rest, used =>
    let baseName := if needsSanitize then sanitizeToolName toolName else toolName
    match pickUnusedName used baseName baseName 1 fuel with
    | none => none
    | some name =>
      match buildToolNameMapGo needsSanitize fuel rest (used ++ [name]) with
      | none => none
      | some (toProv, toVs) => some ((toolName, name) :: toProv, (name, toolName) :: toVs)

/-- The pair of maps returned by `buildToolNameMap`, as association lists
(`Map` keys are unique, which the theorems below establish). -/
structure ToolNameMaps where
  toProvider : List (String × String)
  toVsCode : List (String × String)
  deriving DecidableEq

/-- `buildToolNameMap`: empty maps for an absent/empty tool list, otherwise
sanitization exactly under the `@ai-sdk/anthropic` / `@ai-sdk/openai`
dialects, with deterministic `_1`, `_2`, … collision suffixes. -/
def buildToolNameMap (tools : List String) (providerNpm : Option String)
    (fuel : Nat) : Option ToolNameMaps :=
  if tools.isEmpty then some (ToolNameMaps.mk [] [])
  else
    let needsSanitize := providerNpm == some "@ai-sdk/anthropic" ||
      providerNpm == some "@ai-sdk/openai"
    match buildToolNameMapGo needsSanitize fuel tools [] with
    | none => none
    | some (toProv, toVs) => some (ToolNameMaps.mk toProv toVs)

/-! ## Message Translator (`src/provider.ts`, `messagesToAiSdkMessages` /
`mapVsCodeMessageToAiSdkMessages`)

Byte payloads of data parts are carried as opaque strings; the UTF-8 decode
of `text/*` payloads and the base64 transcoding of binary payloads are
injective re-encodings and are modelled by carrying the payload itself. -/

/-- Nested content of a VS Code `LanguageModelToolResultPart`: text parts,
prompt-TSX parts (stringified), data parts and other (`custom`) values. -/
inductive LMResultPart
  | text (value : String)
  | promptTsx (value : String)
  | data (mimeType : String) (payload : String)
  | custom
  deriving DecidableEq

/-- A VS Code chat request content part (the tagged union the translator
matches on); `unknownPart` stands for any other part class, which the source
drops. -/
inductive LMPart
  | text (value : String)
  | toolCall (callId : String) (name : String) (input : String)
  | toolResult (callId : String) (content : List LMResultPart)
  | data (mimeType : String) (payload : String)
  | unknownPart
  deriving DecidableEq

/-- Role of a VS Code chat request message. -/
inductive Role
  | user
  | assistant
  deriving DecidableEq

/-- A VS Code chat request message (one Turn). -/
structure LMMessage where
  role : Role
  content : List LMPart
  deriving DecidableEq

/-- A structured item of a translated tool-result output list. -/
inductive AiOutputPart
  | text (t : String)
  | imageData (payload : String) (mediaType : String)
  | fileData (payload : String) (mediaType : String)
  | custom
  deriving DecidableEq

/-- Output of `languageModelToolResultContentToOutput`: a concatenated text
result or a structured list (these are the two shapes the code produces). -/
inductive AiToolOutput
  | text (value : String)
  | content (value : List AiOutputPart)
  deriving DecidableEq

/-- A provider-side (AI SDK) content item. -/
inductive AiPart
  | text (t : String)
  | image (payload : String) (mimeType : String)
  | file (payload : String) (mimeType : String)
  | toolCall (toolCallId : String) (toolName : String) (input : String)
  | toolResult (toolCallId : String) (toolName : String) (output : AiToolOutput)
  deriving DecidableEq

/-- Provider message content: a plain string (the simplified form) or a
structured part list. -/
inductive AiContent
  | str (s : String)
  | parts (ps : List AiPart)
  deriving DecidableEq

/-- Role of a provider message. -/
inductive AiRole
  | user
  | assistant
  | tool
  deriving DecidableEq

/-- A provider (AI SDK) message. -/
structure AiMessage where
  role : AiRole
  content : AiContent
  deriving DecidableEq

/-- The part list of a provider message content (empty for the simplified
string form). -/
def aiContentParts : AiContent → List AiPart
  | AiContent.str _ => []
  | AiContent.parts ps => ps

/-- `mapToolName`: `toolNameMap.get(name) ?? name`. -/
def mapToolName (name : String) (toolNameMap : List (String × String)) : String :=
  (toolNameMap.lookup name).getD name

/-- JS `Map.set`: the new binding shadows any earlier one for the same key
(modelled by prepending, so `List.lookup` finds the latest binding). -/
def mapSet (m : List (String × String)) (k v : String) : List (String × String) :=
  (k, v) :: m

/-- Loop body of `languageModelToolResultContentToOutput`: the structured
parts and the text chunks one nested result part contributes, in source
order. -/
def toolResultStep : LMResultPart → List AiOutputPart × List String
  | LMResultPart.text v => ([AiOutputPart.text v], [v])
  | LMResultPart.promptTsx v => ([AiOutputPart.text v], [v])
  | LMResultPart.data mime payload =>
    if mime == "cache_control" then ([], [])
    else if strStartsWith mime "text/" then ([AiOutputPart.text payload], [payload])
    else if strStartsWith mime "image/" then ([AiOutputPart.imageData payload mime], [])
    else ([AiOutputPart.fileData payload mime], [])
  | LMResultPart.custom => ([AiOutputPart.custom], [])

/-- Whether a structured output item is a text item. -/
def isOutputTextPart : AiOutputPart → Bool
  | AiOutputPart.text _ => true
  | _ => false

/-- `languageModelToolResultContentToOutput`: empty content reduces to an
empty text result, all-text content is concatenated into one string result,
and mixed content is kept as a structured list. -/
def languageModelToolResultContentToOutput (content : List LMResultPart) :
    AiToolOutput :=
  let parts := (content.map (fun p => (toolResultStep p).1)).flatten
  let textChunks := (content.map (fun p => (toolResultStep p).2)).flatten
  if parts.isEmpty then AiToolOutput.text ""
  else if parts.all isOutputTextPart then AiToolOutput.text (String.join textChunks)
  else AiToolOutput.content parts

/-- `dataPartToAiSdkPart`: the `cache_control` sentinel is dropped, `text/*`
decodes to a text item, `image/*` to an image item, anything else to a file
item. -/
def dataPartToAiSdkPart (mimeType payload : String) : Option AiPart :=
  if mimeType == "cache_control" then none
  else if strStartsWith mimeType "text/" then some (AiPart.text payload)
  else if strStartsWith mimeType "image/" then some (AiPart.image payload mimeType)
  else some (AiPart.file payload mimeType)

/-- Whether a provider content item is a plain text item. -/
def isTextPart : AiPart → Bool
  | AiPart.text _ => true
  | _ => false

/-- The text of a provider text item (the `.text` field access of the
source's `parts.map(p => p.text)` on an all-text list). -/
def textOfPart : AiPart → String
  | AiPart.text t => t
  | _ => ""

/-- `simplifyTextOnlyContent`: an empty list becomes the empty string, an
all-text list collapses to one concatenated string, anything else stays a
structured list. -/
def simplifyTextOnlyContent (parts : List AiPart) : AiContent :=
  if parts.isEmpty then AiContent.str ""
  else if parts.all isTextPart then
    AiContent.str (String.join (parts.map textOfPart))
  else AiContent.parts parts

/-- Loop body of `mapVsCodeMessageToAiSdkMessages`: what one VS Code part
contributes to the accumulators `textImageFileParts`, `toolResultParts` and
`assistantParts` (in that order). -/
def classifyPart (isUser : Bool)
    (toolNameByCallId toolNameMap : List (String × String)) :
    LMPart → List AiPart × List AiPart × List AiPart
  | LMPart.text v =>
    if isUser then ([AiPart.text v], [], []) else ([], [], [AiPart.text v])
  | LMPart.toolCall callId name input =>
    ([], [], [AiPart.toolCall callId (mapToolName name toolNameMap) input])
  | LMPart.toolResult callId content =>
    let toolName :=
      (toolNameByCallId.lookup callId).getD (mapToolName "unknown" toolNameMap)
    ([], [AiPart.toolResult callId toolName
      (languageModelToolResultContentToOutput content)], [])
  | LMPart.data mime payload =>
    match dataPartToAiSdkPart mime payload with
    | none => ([], [], [])
    | some converted =>
      if isUser then ([converted], [], []) else ([], [], [converted])
  | LMPart.unknownPart => ([], [], [])

/-- The part loop of `mapVsCodeMessageToAiSdkMessages` over a whole content
list: concatenation of the per-part contributions in order. -/
def classifiedParts (isUser : Bool)
    (toolNameByCallId toolNameMap : List (String × String)) :
    List LMPart → List AiPart × List AiPart × List AiPart
  | [] => ([], [], [])
  | p :: rest =>
    let head := classifyPart isUser toolNameByCallId toolNameMap p
    let tail := classifiedParts isUser toolNameByCallId toolNameMap rest
    (head.1 ++ tail.1, head.2.1 ++ tail.2.1, head.2.2 ++ tail.2.2)

/-- `message.role === vscode.LanguageModelChatMessageRole.User`. -/
def roleIsUser : Role → Bool
  | Role.user => true
  | Role.assistant => false

/-- `mapVsCodeMessageToAiSdkMessages`: output ordering per turn — for a User
turn a combined user-content message (only if non-empty) then a tool-result
message (only if any tool results); for an Assistant turn a single assistant
message, unconditionally. -/
def mapVsCodeMessageToAiSdkMessages (message : LMMessage)
    (toolNameByCallId toolNameMap : List (String × String)) : List AiMessage :=
  let isUser := roleIsUser message.role
  let acc := classifiedParts isUser toolNameByCallId toolNameMap message.content
  if isUser then
    (if acc.1.isEmpty then [] else
      [AiMessage.mk AiRole.user (simplifyTextOnlyContent acc.1)]) ++
    (if acc.2.1.isEmpty then [] else
      [AiMessage.mk AiRole.tool (AiContent.parts acc.2.1)])
  else
    [AiMessage.mk AiRole.assistant (simplifyTextOnlyContent acc.2.2)]

/-- The prepass of `messagesToAiSdkMessages` filling `toolNameByCallId` from
every `ToolCall` part of the whole conversation (a later `Map.set` for the
same callId overwrites an earlier one). -/
def collectToolNamesByCallId (messages : List LMMessage)
    (toolNameMap : List (String × String)) : List (String × String) :=
  messages.foldl (fun acc message =>
    message.content.foldl (fun acc2 part =>
      match part with
      | LMPart.toolCall callId name _ => mapSet acc2 callId (mapToolName name toolNameMap)
      | _ => acc2) acc) []

/-- `messagesToAiSdkMessages`: prepass, then per-turn translation. -/
def messagesToAiSdkMessages (messages : List LMMessage)
    (toolNameMap : List (String × String)) : List AiMessage :=
  let toolNameByCallId := collectToolNamesByCallId messages toolNameMap
  (messages.map
    (fun m => mapVsCodeMessageToAiSdkMessages m toolNameByCallId toolNameMap)).flatten

/-- The `(callId, raw name)` pairs of all `ToolCall` parts of the
conversation, in conversation order. -/
def allToolCalls (messages : List LMMessage) : List (String × String) :=
  (messages.map (fun m => m.content.filterMap (fun p =>
    match p with
    | LMPart.toolCall c n _ => some (c, n)
    | _ => none))).flatten

/-- The raw name attached to the LAST pair with the given key, if any. -/
def lastWithKey (calls : List (String × String)) (callId : String) : Option String :=
  match calls with
  | [] => none
  | (c, n) :: rest =>
    match lastWithKey rest callId with
    | some r => some r
    | none => if c == callId then some n else none

/-- Spec-side description for C6 (amended): the raw tool name of the last
`ToolCall` part with the given callId anywhere in the conversation. -/
def lastToolCallName (messages : List LMMessage) (callId : String) : Option String :=
  lastWithKey (allToolCalls messages) callId

/-- Conversation refuting C6 as stated: a `ToolCall` for callId `X` named
`alpha`, then the `ToolResult` for `X`, then a later `ToolCall` for the same
callId named `beta`. -/
def c6Conversation : List LMMessage :=
  [LMMessage.mk Role.assistant [LMPart.toolCall "X" "alpha" "inp1"],
   LMMessage.mk Role.user [LMPart.toolResult "X" []],
   LMMessage.mk Role.assistant [LMPart.toolCall "X" "beta" "inp2"]]

/-! ## Streaming Response Adapter (`src/zenClient.ts`, `streamZen`) -/

/-- A raw provider stream event (the `part.type` tagged union the loop
matches on); `finishOrMeta` stands for the finish/metadata part types the
loop ignores. -/
inductive StreamPart
  | textDelta (text : String)
  | reasoningDelta (text : String)
  | toolCall (toolCallId : String) (toolName : String) (input : String)
  | errorPart (message : String)
  | finishOrMeta
  deriving DecidableEq

/-- A callback delivery of the adapter: an `onTextDelta` or `onToolCall`
invocation. -/
inductive CallbackEvent
  | textDelta (s : String)
  | toolCall (toolCallId : String) (toolName : String) (input : String)
  deriving DecidableEq

/-- The `for await` loop plus trailing fallback of `streamZen`, over a pure
event list.  `emitted` and `sawAnyChunk` are the two loop flags; the result
collects the callback deliveries in order.  An `error` part is wrapped by
`wrapApiError` and thrown, and the surrounding `catch` applies
`wrapApiError` once more to the thrown error's message, which the error
branch reproduces. -/
def streamZenRun (toolNameMap : List (String × String)) :
    List StreamPart → Bool → Bool → Except ChatError (List CallbackEvent)
  | [], emitted, sawAnyChunk =>
    if !emitted then
      Except.ok [CallbackEvent.textDelta
        (if sawAnyChunk then "\n" else "No response returned by model.")]
    else Except.ok []
  | part :: rest, emitted, _ =>
    match part with
    | StreamPart.textDelta t =>
      (streamZenRun toolNameMap rest (emitted || decide (t.length > 0)) true).map
        (fun evs => CallbackEvent.textDelta t :: evs)
    | StreamPart.reasoningDelta t =>
      if t.length > 0 then
        (streamZenRun toolNameMap rest true true).map
          (fun evs => CallbackEvent.textDelta t :: evs)
      else
        streamZenRun toolNameMap rest emitted true
    | StreamPart.toolCall callId name input =>
      (streamZenRun toolNameMap rest true true).map
        (fun evs => CallbackEvent.toolCall callId
          ((toolNameMap.lookup name).getD name) input :: evs)
    | StreamPart.errorPart msg =>
      Except.error (wrapApiError (wrapApiError msg).message)
    | StreamPart.finishOrMeta => streamZenRun toolNameMap rest emitted true

/-- `streamZen`: the loop started with `emitted = false` and
`sawAnyChunk = false`. -/
def streamZen (toolNameMap : List (String × String)) (parts : List StreamPart) :
    Except ChatError (List CallbackEvent) :=
  streamZenRun toolNameMap parts false false

/-- Spec-side description for C4: the deliveries the loop makes for each
event in order, with no fallback appended. -/
def deliveredEventsSpec (toolNameMap : List (String × String)) :
    List StreamPart → List CallbackEvent
  | [] => []
  | StreamPart.textDelta t :: rest =>
    CallbackEvent.textDelta t :: deliveredEventsSpec toolNameMap rest
  | StreamPart.reasoningDelta t :: rest =>
    if t.length > 0 then
      CallbackEvent.textDelta t :: deliveredEventsSpec toolNameMap rest
    else deliveredEventsSpec toolNameMap rest
  | StreamPart.toolCall callId name input :: rest =>
    CallbackEvent.toolCall callId ((toolNameMap.lookup name).getD name) input ::
      deliveredEventsSpec toolNameMap rest
  | StreamPart.errorPart _ :: rest => deliveredEventsSpec toolNameMap rest
  | StreamPart.finishOrMeta :: rest => deliveredEventsSpec toolNameMap rest

/-- Spec-side description for C4: whether the stream makes the loop set
`emitted` — a non-empty text delta, a non-empty reasoning delta, or any tool
call. -/
def emitsContent (parts : List StreamPart) : Bool :=
  parts.any fun p =>
    match p with
    | StreamPart.textDelta t => decide (t.length > 0)
    | StreamPart.reasoningDelta t => decide (t.length > 0)
    | StreamPart.toolCall _ _ _ => true
    | _ => false

/-! ## Prompt Cache Annotator (`src/provider.ts`,
`applyAnthropicCacheControl` / `applyOpenAICompatibleCacheControl` /
`removeOpenAICompatibleCacheControl` / `applyCacheControlToMessages` and the
dispatch in `provideLanguageModelChatResponse`)

`providerOptions` records are modelled with the fields this code reads or
writes; a field that is absent or explicitly `undefined` in JS is `none`
(every check in the source treats the two alike, via truthiness or
`=== undefined`). -/

/-- An ephemeral cache marker (`{ type: 'ephemeral', ttl? }`; the `type` is
always `'ephemeral'`, so only the optional ttl tier is carried). -/
structure CacheControl where
  ttl : Option String
  deriving DecidableEq

/-- The `anthropic` entry of a message's `providerOptions` (both spellings
the source checks). -/
structure AnthropicOptions where
  cacheControl : Option CacheControl
  cache_control : Option CacheControl
  deriving DecidableEq

/-- The `openaiCompatible` entry of a message's `providerOptions`. -/
structure OpenaiCompatibleOptions where
  cache_control : Option CacheControl
  deriving DecidableEq

/-- A message's `providerOptions` record (`none` = key absent). -/
structure MsgProviderOptions where
  anthropic : Option AnthropicOptions
  openaiCompatible : Option OpenaiCompatibleOptions
  deriving DecidableEq

/-- A provider message as the annotator sees it: role, opaque content, and
the `providerOptions` record. -/
structure CMessage where
  role : String
  content : String
  providerOptions : Option MsgProviderOptions
  deriving DecidableEq

/-- `mergeProviderOptions(base, { anthropic: { cacheControl: cc } })`: when
the existing `anthropic` entry is an object it is shallow-spread with the
addition (`cacheControl` overridden, other fields kept); otherwise the
addition replaces it; an absent base yields just the addition. -/
def mergeProviderOptionsAnthropic (base : Option MsgProviderOptions)
    (cc : CacheControl) : MsgProviderOptions :=
  match base with
  | none => MsgProviderOptions.mk (some (AnthropicOptions.mk (some cc) none)) none
  | some b =>
    match b.anthropic with
    | some a => { b with anthropic := some { a with cacheControl := some cc } }
    | none => { b with anthropic := some (AnthropicOptions.mk (some cc) none) }

/-- `mergeProviderOptions(base, { openaiCompatible: { cache_control: cc } })`.
The modelled `openaiCompatible` record has only the `cache_control` field,
so the object-spread and plain-assignment cases coincide. -/
def mergeProviderOptionsOpenaiSet (base : Option MsgProviderOptions)
    (cc : CacheControl) : MsgProviderOptions :=
  match base with
  | none => MsgProviderOptions.mk none (some (OpenaiCompatibleOptions.mk (some cc)))
  | some b => { b with openaiCompatible := some (OpenaiCompatibleOptions.mk (some cc)) }

/-- `mergeProviderOptions(base, { openaiCompatible: { cache_control:
undefined } })`: the spread leaves the key present with value `undefined`,
i.e. `none`. -/
def mergeProviderOptionsOpenaiClear (base : Option MsgProviderOptions) :
    MsgProviderOptions :=
  match base with
  | none => MsgProviderOptions.mk none (some (OpenaiCompatibleOptions.mk none))
  | some b => { b with openaiCompatible := some (OpenaiCompatibleOptions.mk none) }

/-- The updater `applyAnthropicCacheControl` passes to
`applyCacheControlToMessages`: a message already carrying an anthropic cache
marker (either spelling; present markers are objects, hence truthy) is left
untouched, otherwise the marker is merged in. -/
def anthropicUpdater (cacheControl : CacheControl) (m : CMessage) : CMessage :=
  match m.providerOptions.bind (fun o => o.anthropic) with
  | some a =>
    if (a.cacheControl.isSome || a.cache_control.isSome) = true then m
    else
      { m with providerOptions := some (mergeProviderOptionsAnthropic m.providerOptions cacheControl) }
  | none =>
    { m with providerOptions := some (mergeProviderOptionsAnthropic m.providerOptions cacheControl) }

/-- The updater of `applyOpenAICompatibleCacheControl`: skip when
`openaiCompatible.cache_control` is already set, else merge the ephemeral
marker in. -/
def openaiCompatibleUpdater (m : CMessage) : CMessage :=
  match m.providerOptions.bind (fun o => o.openaiCompatible) with
  | some o =>
    if o.cache_control.isSome then m
    else
      { m with providerOptions := some (mergeProviderOptionsOpenaiSet m.providerOptions (CacheControl.mk none)) }
  | none =>
    { m with providerOptions := some (mergeProviderOptionsOpenaiSet m.providerOptions (CacheControl.mk none)) }

/-- The selection of `applyCacheControlToMessages`: indices of up to the
first 2 system-role messages plus the last 2 non-system messages
(`slice(0, 2)` and `slice(-2)` of the two index lists). -/
def selectedIndices (messages : List CMessage) : List Nat :=
  let systemIndices :=
    (messages.enum.filter (fun p => p.2.role == "system")).map Prod.fst
  let nonSystemIndices :=
    (messages.enum.filter (fun p => !(p.2.role == "system"))).map Prod.fst
  systemIndices.take 2 ++
    nonSystemIndices.drop (nonSystemIndices.length - 2)

/-- `applyCacheControlToMessages`: apply the updater to exactly the selected
indices (the `messages.map((message, index) => ...)` of the source). -/
def applyCacheControlToMessages (messages : List CMessage)
    (updater : CMessage → CMessage) : List CMessage :=
  let selected := selectedIndices messages
  if selected.isEmpty then messages
  else messages.mapIdx
    (fun i m => if selected.contains i then updater m else m)

/-- `applyAnthropicCacheControl`. -/
def applyAnthropicCacheControl (messages : List CMessage)
    (cacheControl : CacheControl) : List CMessage :=
  if messages.isEmpty then messages
  else applyCacheControlToMessages messages (anthropicUpdater cacheControl)

/-- `applyOpenAICompatibleCacheControl`. -/
def applyOpenAICompatibleCacheControl (messages : List CMessage) :
    List CMessage :=
  if messages.isEmpty then messages
  else applyCacheControlToMessages messages openaiCompatibleUpdater

/-- Per-message strip of `removeOpenAICompatibleCacheControl`: a message
without an `openaiCompatible.cache_control` value is returned unchanged,
otherwise the field is cleared through the merge with `undefined`. -/
def stripOpenaiCacheControl (m : CMessage) : CMessage :=
  match m.providerOptions.bind (fun o => o.openaiCompatible) with
  | none => m
  | some o =>
    match o.cache_control with
    | none => m
    | some _ =>
      { m with providerOptions := some (mergeProviderOptionsOpenaiClear m.providerOptions) }

/-- `removeOpenAICompatibleCacheControl`.  The source returns the original
array when no element changed; the mapped list is elementwise identical in
that case, so the map is the extensional behaviour. -/
def removeOpenAICompatibleCacheControl (messages : List CMessage) :
    List CMessage :=
  if messages.isEmpty then messages else messages.map stripOpenaiCacheControl

/-- `isGlm47ModelId`: trim, lowercase, then exact match or suffix match on
`"/glm-4.7"`. -/
def isGlm47ModelId (modelId : String) : Bool :=
  let normalized := strToLower (strTrim modelId)
  normalized == "glm-4.7" || strEndsWith normalized "/glm-4.7"

/-- `buildAnthropicCacheControl`: `{ type: 'ephemeral' }` for ttl `'none'`,
`{ type: 'ephemeral', ttl }` otherwise. -/
def buildAnthropicCacheControl (ttl : String) : CacheControl :=
  if ttl == "none" then CacheControl.mk none else CacheControl.mk (some ttl)

/-- The message-annotation dispatch of `provideLanguageModelChatResponse`
(src/provider.ts lines 73-88): the anthropic marker when prompt caching is
enabled under the anthropic dialect; under the openai-compatible dialect
apply the marker, except for GLM-4.7 model ids where markers are stripped;
with caching disabled the openai-compatible dialect also strips; any other
dialect leaves the messages untouched. -/
def annotateMessages (promptCachingEnabled : Bool) (anthropicTtl : String)
    (providerNpm : Option String) (modelId : String)
    (messages : List CMessage) : List CMessage :=
  if (promptCachingEnabled && (providerNpm == some "@ai-sdk/anthropic")) = true then
    applyAnthropicCacheControl messages (buildAnthropicCacheControl anthropicTtl)
  else if (promptCachingEnabled && (providerNpm == some "@ai-sdk/openai-compatible")) = true then
    if isGlm47ModelId modelId then removeOpenAICompatibleCacheControl messages
    else applyOpenAICompatibleCacheControl messages
  else if (providerNpm == some "@ai-sdk/openai-compatible") = true then
    removeOpenAICompatibleCacheControl messages
  else messages

/-! ## Tool Round-Trip Driver (`src/extension.ts`, `runToolLoop`) -/

/-- Outcome of the self-test driver: natural success, the immediate failure
on an unexpected tool name, or the iteration-limit failure. -/
inductive ToolLoopOutcome
  | success
  | unexpectedToolCall (name : String)
  | iterationLimit
  deriving DecidableEq

/-- `SELF_TEST_TOOL_NAME`. -/
def selfTestToolName : String := "opencodeZen.selfTest.getTime"

/-- One streamed response part of a self-test iteration. -/
inductive SelfTestPart
  | text (value : String)
  | toolCall (name : String) (callId : String) (input : String)
  | data
  deriving DecidableEq

/-- The `toolCalls` list one iteration collects from its response stream:
`(name, callId, input)` of every tool-call part, in stream order. -/
def toolCallsOf (parts : List SelfTestPart) : List (String × String × String) :=
  parts.filterMap fun p =>
    match p with
    | SelfTestPart.toolCall n c i => some (n, c, i)
    | _ => none

/-- The `for (let i = 0; i < 5; i++)` loop of `runToolLoop`, over a
transcript giving the response parts of each request.  `i` is the current
iteration index, the fuel the number of remaining iterations.  The result is
the number of requests issued and the outcome: returning at the first
iteration with zero tool calls; throwing on the first tool call whose name
is not the diagnostic tool; throwing the iteration-limit error after the
loop. -/
def runToolLoopGo (transcript : Nat → List SelfTestPart) (i : Nat) :
    Nat → Nat × ToolLoopOutcome
  | 0 => (i, ToolLoopOutcome.iterationLimit)
  | fuel + 1 =>
    let calls := toolCallsOf (transcript i)
    if calls.isEmpty then (i + 1, ToolLoopOutcome.success)
    else
      match calls.find? (fun c => !(c.1 == selfTestToolName)) with
      | some c => (i + 1, ToolLoopOutcome.unexpectedToolCall c.1)
      | none => runToolLoopGo transcript (i + 1) fuel

/-- `runToolLoop`: the loop starting at iteration 0 with the hard cap of 5
iterations. -/
def runToolLoop (transcript : Nat → List SelfTestPart) :
    Nat × ToolLoopOutcome :=
  runToolLoopGo transcript 0 5

/-- Transcript refuting C9 as stated: every iteration yields one tool call,
but its name is not the diagnostic tool. -/
def c9BadTranscript : Nat → List SelfTestPart :=
  fun _ => [SelfTestPart.toolCall "badTool" "call-1" "input"]

/-- Transcript for the C9 witness: iterations 1 and 2 (indices 0 and 1)
yield one well-named tool call, iteration 3 (index 2) yields none. -/
def c9GoodTranscript : Nat → List SelfTestPart :=
  fun i => if i < 2 then
    [SelfTestPart.toolCall selfTestToolName "call-1" "input"] else []

/-- Transcript for the C9 witness: every iteration yields one well-named
tool call. -/
def c9AllCallsTranscript : Nat → List SelfTestPart :=
  fun _ => [SelfTestPart.toolCall selfTestToolName "call-1" "input"]

end OpenCodeZen

namespace OpenCodeZen

theorem pickUnusedName_not_used (used : List String) (baseName : String) :
    ∀ (name : String) (suffix fuel : Nat) (n : String),
      pickUnusedName used baseName name suffix fuel = some n → n ∉ used := by
  intro name suffix fuel
  induction fuel generalizing name suffix with
  | zero =>
    intro n h
    unfold pickUnusedName at h
    split at h
    · simp at h
    · rename_i hc
      obtain rfl : name = n := by simpa using h
      simpa using hc
  | succ fuel ih =>
    intro n h
    unfold pickUnusedName at h
    split at h
    · exact ih _ _ _ h
    · rename_i hc
      obtain rfl : name = n := by simpa using h
      simpa using hc

theorem buildToolNameMapGo_spec (s : Bool) (fuel : Nat) :
    ∀ (names used : List String) (tp tv : List (String × String)),
      buildToolNameMapGo s fuel names used = some (tp, tv) →
      tv = tp.map (fun p => (p.2, p.1)) ∧
      tp.map Prod.fst = names ∧
      (∀ q ∈ tp.map Prod.snd, q ∉ used) ∧
      (tp.map Prod.snd).Nodup := by
  intro names
  induction names with
  | nil =>
    intro used tp tv h
    unfold buildToolNameMapGo at h
    simp at h
    simp [h.1, h.2]
  | cons t rest ih =>
    intro used tp tv h
    unfold buildToolNameMapGo at h
    cases hpick : pickUnusedName used
        (if s then sanitizeToolName t else t)
        (if s then sanitizeToolName t else t) 1 fuel with
    | none => simp [hpick] at h
    | some name =>
      cases hgo : buildToolNameMapGo s fuel rest (used ++ [name]) with
      | none => simp [hpick, hgo] at h
      | some pr =>
        obtain ⟨tp', tv'⟩ := pr
        simp [hpick, hgo] at h
        obtain ⟨htp, htv⟩ := h
        obtain ⟨ih1, ih2, ih3, ih4⟩ := ih (used ++ [name]) tp' tv' hgo
        have hnotused : name ∉ used :=
          pickUnusedName_not_used used _ _ _ _ _ hpick
        refine ⟨?_, ?_, ?_, ?_⟩
        · simp [← htp, ← htv, ih1]
        · simp [← htp, ih2]
        · intro q hq
          rw [← htp] at hq
          simp only [List.map_cons, List.mem_cons] at hq
          rcases hq with rfl | hq
          · exact hnotused
          · have := ih3 q hq
            simp only [List.mem_append, not_or] at this
            exact this.1
        · rw [← htp]
          simp only [List.map_cons, List.nodup_cons]
          refine ⟨?_, ih4⟩
          intro hmem
          have := ih3 name hmem
          simp at this

theorem lookup_cons (k a1 a2 : String) (rest : List (String × String)) :
    List.lookup k ((a1, a2) :: rest) =
      if k == a1 then some a2 else List.lookup k rest := by
  rw [List.lookup]
  by_cases hk : (k == a1) = true
  · simp [hk]
  · simp only [Bool.not_eq_true] at hk
    simp [hk]

theorem lookup_mem {l : List (String × String)} {k v : String}
    (h : l.lookup k = some v) : (k, v) ∈ l := by
  induction l with
  | nil => simp [List.lookup] at h
  | cons a rest ih =>
    obtain ⟨a1, a2⟩ := a
    rw [lookup_cons] at h
    by_cases hk : (k == a1) = true
    · rw [if_pos hk] at h
      obtain rfl : k = a1 := by simpa using hk
      obtain rfl : a2 = v := by simpa using h
      exact List.mem_cons_self _ _
    · rw [if_neg hk] at h
      exact List.mem_cons_of_mem _ (ih h)

theorem mem_lookup_of_nodup_keys {l : List (String × String)} {k v : String}
    (hnodup : (l.map Prod.fst).Nodup) (h : (k, v) ∈ l) :
    l.lookup k = some v := by
  induction l with
  | nil => simp at h
  | cons a rest ih =>
    obtain ⟨a1, a2⟩ := a
    simp only [List.map_cons, List.nodup_cons] at hnodup
    rw [List.mem_cons] at h
    rcases h with h | h
    · obtain ⟨rfl, rfl⟩ : k = a1 ∧ v = a2 := by
        constructor <;> [exact congrArg Prod.fst h; exact congrArg Prod.snd h]
      simp [lookup_cons]
    · have hkne : k ≠ a1 := by
        intro hkk
        exact hnodup.1 (List.mem_map.mpr ⟨(k, v), h, by simp [hkk]⟩)
      rw [lookup_cons, if_neg (by simpa using hkne)]
      exact ih hnodup.2 h

/-- C5: for every tool list with pairwise-distinct host names and every
dialect, whenever the collision loop of `buildToolNameMap` terminates (the
fuel sufficed, i.e. the build returned a map) the produced `NameMap` is a
bijection: `toVsCode` inverts `toProvider` on every generated name,
`toProvider` inverts `toVsCode`, and the generated provider names are
pairwise distinct. -/
theorem c5_name_map_bijective (tools : List String) (providerNpm : Option String)
    (fuel : Nat) (m : ToolNameMaps) (hnodup : tools.Nodup)
    (hbuild : buildToolNameMap tools providerNpm fuel = some m) :
    (∀ h p, m.toProvider.lookup h = some p → m.toVsCode.lookup p = some h) ∧
    (∀ p h, m.toVsCode.lookup p = some h → m.toProvider.lookup h = some p) ∧
    (m.toProvider.map Prod.snd).Nodup := by
  unfold buildToolNameMap at hbuild
  by_cases hempty : tools.isEmpty
  · simp [hempty] at hbuild
    simp [← hbuild, List.lookup]
  · simp [hempty] at hbuild
    cases hgo : buildToolNameMapGo
        (providerNpm == some "@ai-sdk/anthropic" || providerNpm == some "@ai-sdk/openai")
        fuel tools [] with
    | none => simp [hgo] at hbuild
    | some pr =>
      obtain ⟨tp, tv⟩ := pr
      simp [hgo] at hbuild
      obtain ⟨hswap, hfst, _, hsnd⟩ := buildToolNameMapGo_spec _ _ tools [] tp tv hgo
      have hkeys : (tp.map Prod.fst).Nodup := by rw [hfst]; exact hnodup
      have hvkeys : (tv.map Prod.fst).Nodup := by
        rw [hswap]
        simpa [Function.comp] using hsnd
      refine ⟨?_, ?_, ?_⟩
      · intro h p hl
        have hmem : (h, p) ∈ tp := by
          have := lookup_mem (l := m.toProvider) hl
          simpa [← hbuild] using this
        have hmem' : (p, h) ∈ tv := by
          rw [hswap]
          exact List.mem_map.mpr ⟨(h, p), hmem, rfl⟩
        have := mem_lookup_of_nodup_keys hvkeys hmem'
        simpa [← hbuild] using this
      · intro p h hl
        have hmem : (p, h) ∈ tv := by
          have := lookup_mem (l := m.toVsCode) hl
          simpa [← hbuild] using this
        have hmem' : (h, p) ∈ tp := by
          rw [hswap] at hmem
          obtain ⟨⟨x, y⟩, hxy, hxy2⟩ := List.mem_map.mp hmem
          simp at hxy2
          simpa [← hxy2.1, ← hxy2.2] using hxy
        have := mem_lookup_of_nodup_keys hkeys hmem'
        simpa [← hbuild] using this
      · simpa [← hbuild] using hsnd

/-- Witness for C5: evaluating the build on the two colliding names
of the spec's collision example produces mutually-inverse maps with
distinct provider names. -/
theorem c5_name_map_bijective_witness :
    ((ToolNameMaps.mk
        [("Get Time", "Get_Time"), ("Get_Time", "Get_Time_1")]
        [("Get_Time", "Get Time"), ("Get_Time_1", "Get_Time")]).toProvider.map
      Prod.snd).Nodup :=
  (c5_name_map_bijective ["Get Time", "Get_Time"] (some "@ai-sdk/anthropic") 10
    (ToolNameMaps.mk
      [("Get Time", "Get_Time"), ("Get_Time", "Get_Time_1")]
      [("Get_Time", "Get Time"), ("Get_Time_1", "Get_Time")])
    (by decide) (by decide)).2.2

/-- C2 counterexample: the hyphen is inside the allowed class `[A-Za-z0-9_-]`,
so `"Get-Time"` is left unchanged by sanitization — it does NOT normalize to
`"Get_Time"` — and the adapter emits the provider names `"Get-Time"` and
`"Get_Time"` (no collision, no `_1` suffix), refuting the claim at its own
input. -/
theorem c2_hyphen_not_escaped :
    sanitizeToolName "Get-Time" = "Get-Time" ∧
    sanitizeToolName "Get-Time" ≠ "Get_Time" ∧
    (buildToolNameMap ["Get-Time", "Get_Time"] (some "@ai-sdk/anthropic") 10).map
      (fun m => m.toProvider.map Prod.snd) = some ["Get-Time", "Get_Time"] := by
  decide

/-- C2 (amended): for host names `"Get Time"` and `"Get_Time"` (the space is
outside `[A-Za-z0-9_-]`) under a sanitizing dialect, both names normalize to
`"Get_Time"`; the adapter emits provider names `"Get_Time"` and
`"Get_Time_1"`, and the inverse map sends each back to its original host
name. -/
theorem c2_collision_example :
    sanitizeToolName "Get Time" = "Get_Time" ∧
    sanitizeToolName "Get_Time" = "Get_Time" ∧
    buildToolNameMap ["Get Time", "Get_Time"] (some "@ai-sdk/anthropic") 10 =
      some (ToolNameMaps.mk
        [("Get Time", "Get_Time"), ("Get_Time", "Get_Time_1")]
        [("Get_Time", "Get Time"), ("Get_Time_1", "Get_Time")]) ∧
    List.lookup "Get_Time"
      [("Get_Time", "Get Time"), ("Get_Time_1", "Get_Time")] = some "Get Time" ∧
    List.lookup "Get_Time_1"
      [("Get_Time", "Get Time"), ("Get_Time_1", "Get_Time")] = some "Get_Time" := by
  decide


/-- C1: the claim says `getModels` with `force` unset and a cached list
present returns the cache iff `now - cachedAt < ttl`, and that `ttl = 0`
always refetches.  The code does the opposite at `ttl = 0` (the
`ttlMs === 0 ||` disjunct returns the cache unconditionally), contradicting
the repository's own PRD ("Disable caching: TTL = 0 disables caching").
This theorem evaluates the embedded decision at a failing input: `force`
unset, cache present, `cachedAt = 0`, `now` one hour later, `ttl = 0`; the
code serves the cache even though `now - cachedAt < ttl` is false. -/
theorem c1_ttl_zero_serves_cache :
    usesCachedModels false true (some 0) 0 3600000 = true ∧
    ¬ ((3600000 : Int) - 0 < ttlMsOf 0) := by
  constructor
  · rfl
  · decide

/-- C8: classification of a terminal stream error by its message text.  A
message containing `"Unauthorized"` or `"401"` is classified `unauthorized`;
otherwise one containing `"404"` or `"Not Found"` is classified
`modelNotFound`; any other message yields a `generic` error that preserves
the original message verbatim. -/
theorem c8_error_classification (msg : String) :
    ((strIncludes msg "Unauthorized" = true ∨ strIncludes msg "401" = true) →
      wrapApiError msg = ChatError.mk ChatErrorKind.unauthorized unauthorizedMessage) ∧
    (strIncludes msg "Unauthorized" = false → strIncludes msg "401" = false →
      (strIncludes msg "404" = true ∨ strIncludes msg "Not Found" = true) →
      wrapApiError msg = ChatError.mk ChatErrorKind.modelNotFound modelNotFoundMessage) ∧
    (strIncludes msg "Unauthorized" = false → strIncludes msg "401" = false →
      strIncludes msg "404" = false → strIncludes msg "Not Found" = false →
      wrapApiError msg = ChatError.mk ChatErrorKind.generic msg) := by
  refine ⟨?_, ?_, ?_⟩
  · rintro (h | h) <;> simp [wrapApiError, h]
  · rintro h1 h2 (h | h) <;> simp [wrapApiError, h1, h2, h]
  · intro h1 h2 h3 h4
    simp [wrapApiError, h1, h2, h3, h4]

/-- Witness for C8: the three classification branches at concrete messages. -/
theorem c8_error_classification_witness :
    wrapApiError "HTTP 401 returned" =
      ChatError.mk ChatErrorKind.unauthorized unauthorizedMessage ∧
    wrapApiError "404 page" =
      ChatError.mk ChatErrorKind.modelNotFound modelNotFoundMessage ∧
    wrapApiError "socket hang up" =
      ChatError.mk ChatErrorKind.generic "socket hang up" :=
  ⟨(c8_error_classification "HTTP 401 returned").1 (Or.inr (by decide)),
   (c8_error_classification "404 page").2.1 (by decide) (by decide) (Or.inl (by decide)),
   (c8_error_classification "socket hang up").2.2 (by decide) (by decide) (by decide) (by decide)⟩

/-- C10: for every input (plain string or serialized message content),
`provideTokenCount` returns `max(1, ceil(length / 4))`: the result is always
at least 1, it is exactly 1 when the serialized length is at most 4, and for
longer inputs it is the exact ceiling of `length / 4` (the least `r` with
`length ≤ 4 * r`). -/
theorem c10_token_count (t : TokenCountText) :
    1 ≤ provideTokenCount t ∧
    ((serializedOf t).length ≤ 4 → provideTokenCount t = 1) ∧
    (4 < (serializedOf t).length →
      (serializedOf t).length ≤ 4 * provideTokenCount t ∧
      4 * (provideTokenCount t - 1) < (serializedOf t).length) := by
  unfold provideTokenCount
  refine ⟨le_max_left _ _, ?_, ?_⟩ <;> intro h <;> omega

/-- Witness for C10 at a 6-character string: the estimate is 2, which is at
least 1, and 6 lies in the interval pinned by the ceiling characterization. -/
theorem c10_token_count_witness :
    (serializedOf (TokenCountText.plain "abcdef")).length ≤
      4 * provideTokenCount (TokenCountText.plain "abcdef") ∧
    4 * (provideTokenCount (TokenCountText.plain "abcdef") - 1) <
      (serializedOf (TokenCountText.plain "abcdef")).length :=
  (c10_token_count (TokenCountText.plain "abcdef")).2.2 (by decide)

theorem foldl_content_toolCalls (nm : List (String × String)) :
    ∀ (content : List LMPart) (acc : List (String × String)),
      content.foldl (fun acc2 part =>
        match part with
        | LMPart.toolCall callId name _ => mapSet acc2 callId (mapToolName name nm)
        | _ => acc2) acc =
      (content.filterMap (fun p =>
        match p with
        | LMPart.toolCall c n _ => some (c, n)
        | _ => none)).foldl (fun a q => mapSet a q.1 (mapToolName q.2 nm)) acc := by
  intro content
  induction content with
  | nil => intro acc; rfl
  | cons p rest ih =>
    intro acc
    cases p <;> simp only [List.foldl_cons, List.filterMap_cons] <;> exact ih _

theorem foldl_flatten_list {α β : Type} (f : α → β → α) :
    ∀ (L : List (List β)) (a : α),
      L.flatten.foldl f a = L.foldl (fun x l => l.foldl f x) a := by
  intro L
  induction L with
  | nil => intro a; rfl
  | cons l rest ih =>
    intro a
    simp [List.foldl_append, ih]

theorem collect_eq_fold (messages : List LMMessage) (nm : List (String × String)) :
    collectToolNamesByCallId messages nm =
      (allToolCalls messages).foldl
        (fun a q => mapSet a q.1 (mapToolName q.2 nm)) [] := by
  unfold collectToolNamesByCallId allToolCalls
  rw [foldl_flatten_list, List.foldl_map]
  congr 1
  funext acc m
  exact foldl_content_toolCalls nm m.content acc

theorem lastWithKey_cons (k n c : String) (rest : List (String × String)) :
    lastWithKey ((k, n) :: rest) c =
      match lastWithKey rest c with
      | some r => some r
      | none => if k == c then some n else none := rfl

theorem lookup_fold_mapSet (nm : List (String × String)) (c : String) :
    ∀ (calls acc : List (String × String)),
      ((calls.foldl (fun a q => mapSet a q.1 (mapToolName q.2 nm)) acc).lookup c) =
        (match lastWithKey calls c with
         | some n => some (mapToolName n nm)
         | none => acc.lookup c) := by
  intro calls
  induction calls with
  | nil => intro acc; rfl
  | cons q rest ih =>
    intro acc
    obtain ⟨k, n⟩ := q
    rw [List.foldl_cons, ih, lastWithKey_cons]
    cases hl : lastWithKey rest c with
    | some r => rfl
    | none =>
      by_cases hk : k = c
      · subst hk
        simp [mapSet, lookup_cons]
      · rw [if_neg (by simpa using hk)]
        simp [mapSet, lookup_cons, show (c == k) = false by
          simpa using (Ne.symm hk)]

theorem collect_lookup (messages : List LMMessage) (nm : List (String × String))
    (c : String) :
    (collectToolNamesByCallId messages nm).lookup c =
      (lastToolCallName messages c).map (fun n => mapToolName n nm) := by
  rw [collect_eq_fold, lookup_fold_mapSet]
  unfold lastToolCallName
  cases lastWithKey (allToolCalls messages) c <;> simp [List.lookup]

theorem dataPart_not_toolResult (mime payload : String) (conv : AiPart)
    (h : dataPartToAiSdkPart mime payload = some conv) (c tn : String)
    (out : AiToolOutput) : conv ≠ AiPart.toolResult c tn out := by
  intro hc
  subst hc
  unfold dataPartToAiSdkPart at h
  split at h
  · simp at h
  · split at h
    · simp at h
    · split at h
      · simp at h
      · simp at h

theorem classifiedParts_shapes (u : Bool) (b nm : List (String × String)) :
    ∀ (parts : List LMPart),
      (∀ p ∈ (classifiedParts u b nm parts).1,
        ∀ c tn out, p ≠ AiPart.toolResult c tn out) ∧
      (∀ p ∈ (classifiedParts u b nm parts).2.1, ∃ c content,
        p = AiPart.toolResult c
          ((b.lookup c).getD (mapToolName "unknown" nm))
          (languageModelToolResultContentToOutput content)) ∧
      (∀ p ∈ (classifiedParts u b nm parts).2.2,
        ∀ c tn out, p ≠ AiPart.toolResult c tn out) := by
  intro parts
  induction parts with
  | nil => refine ⟨?_, ?_, ?_⟩ <;> intro p hp <;> simp [classifiedParts] at hp
  | cons q rest ih =>
    obtain ⟨ih1, ih2, ih3⟩ := ih
    refine ⟨?_, ?_, ?_⟩ <;> intro p hp <;>
      rw [show classifiedParts u b nm (q :: rest) =
        ((classifyPart u b nm q).1 ++ (classifiedParts u b nm rest).1,
         (classifyPart u b nm q).2.1 ++ (classifiedParts u b nm rest).2.1,
         (classifyPart u b nm q).2.2 ++ (classifiedParts u b nm rest).2.2) from rfl] at hp
    · simp only [List.mem_append] at hp
      rcases hp with hp | hp
      · cases q with
        | text v =>
          cases u <;> simp [classifyPart] at hp <;> simp [hp]
        | toolCall callId name input => simp [classifyPart] at hp
        | toolResult callId content => simp [classifyPart] at hp
        | data mime payload =>
          cases hconv : dataPartToAiSdkPart mime payload with
          | none => simp [classifyPart, hconv] at hp
          | some conv =>
            cases u <;> simp [classifyPart, hconv] at hp
            subst hp
            exact dataPart_not_toolResult mime payload _ hconv
        | unknownPart => simp [classifyPart] at hp
      · exact ih1 p hp
    · simp only [List.mem_append] at hp
      rcases hp with hp | hp
      · cases q with
        | text v => cases u <;> simp [classifyPart] at hp
        | toolCall callId name input => simp [classifyPart] at hp
        | toolResult callId content =>
          simp [classifyPart] at hp
          exact ⟨callId, content, hp⟩
        | data mime payload =>
          cases hconv : dataPartToAiSdkPart mime payload with
          | none => simp [classifyPart, hconv] at hp
          | some conv => cases u <;> simp [classifyPart, hconv] at hp
        | unknownPart => simp [classifyPart] at hp
      · exact ih2 p hp
    · simp only [List.mem_append] at hp
      rcases hp with hp | hp
      · cases q with
        | text v =>
          cases u <;> simp [classifyPart] at hp <;> simp [hp]
        | toolCall callId name input =>
          simp [classifyPart] at hp
          simp [hp]
        | toolResult callId content => simp [classifyPart] at hp
        | data mime payload =>
          cases hconv : dataPartToAiSdkPart mime payload with
          | none => simp [classifyPart, hconv] at hp
          | some conv =>
            cases u <;> simp [classifyPart, hconv] at hp
            subst hp
            exact dataPart_not_toolResult mime payload _ hconv
        | unknownPart => simp [classifyPart] at hp
      · exact ih3 p hp

theorem mem_simplify (l : List AiPart) (p : AiPart)
    (h : p ∈ aiContentParts (simplifyTextOnlyContent l)) : p ∈ l := by
  unfold simplifyTextOnlyContent at h
  split at h
  · simp [aiContentParts] at h
  · split at h
    · simp [aiContentParts] at h
    · simpa [aiContentParts] using h

/-- C6 (amended): every tool-result item of the translated conversation
carries the mapped tool name of the LAST `ToolCall` with the same callId
anywhere in the conversation — even one occurring after the `ToolResult` —
and the mapped `"unknown"` placeholder when no such `ToolCall` exists. -/
theorem c6_last_toolcall_wins (messages : List LMMessage)
    (nameMap : List (String × String)) (msg : AiMessage)
    (hmsg : msg ∈ messagesToAiSdkMessages messages nameMap) (p : AiPart)
    (hp : p ∈ aiContentParts msg.content) (c tn : String) (out : AiToolOutput)
    (hpart : p = AiPart.toolResult c tn out) :
    tn = ((lastToolCallName messages c).map (fun n => mapToolName n nameMap)).getD
      (mapToolName "unknown" nameMap) := by
  subst hpart
  unfold messagesToAiSdkMessages at hmsg
  rw [List.mem_flatten] at hmsg
  obtain ⟨l, hl, hml⟩ := hmsg
  rw [List.mem_map] at hl
  obtain ⟨m, _, rfl⟩ := hl
  obtain ⟨sh1, sh2, sh3⟩ := classifiedParts_shapes (roleIsUser m.role)
    (collectToolNamesByCallId messages nameMap) nameMap m.content
  unfold mapVsCodeMessageToAiSdkMessages at hml
  by_cases hu : roleIsUser m.role = true
  · rw [hu] at hml sh1 sh2 sh3
    simp only [if_true, List.mem_append] at hml
    rcases hml with hml | hml
    · split at hml
      · simp at hml
      · simp only [List.mem_singleton] at hml
        subst hml
        have hpm := mem_simplify _ _ hp
        exact absurd rfl (sh1 _ hpm c tn out)
    · split at hml
      · simp at hml
      · simp only [List.mem_singleton] at hml
        subst hml
        simp only [aiContentParts] at hp
        obtain ⟨c', content', heq⟩ := sh2 _ hp
        obtain ⟨rfl, htn, -⟩ :
            c = c' ∧
            tn = (((collectToolNamesByCallId messages nameMap).lookup c').getD
              (mapToolName "unknown" nameMap)) ∧
            out = languageModelToolResultContentToOutput content' := by
          cases heq
          exact ⟨rfl, rfl, rfl⟩
        rw [htn, collect_lookup]
  · rw [Bool.not_eq_true] at hu
    rw [hu] at hml sh1 sh2 sh3
    simp only [Bool.false_eq_true, if_false, List.mem_singleton] at hml
    subst hml
    have hpm := mem_simplify _ _ hp
    exact absurd rfl (sh3 _ hpm c tn out)

/-- Witness for C6 (amended): in the three-turn conversation of
`c6Conversation`, the translated tool result for callId `X` carries `"beta"`,
the name of the last `ToolCall` with callId `X`. -/
theorem c6_last_toolcall_wins_witness :
    "beta" = ((lastToolCallName c6Conversation "X").map
        (fun n => mapToolName n ([] : List (String × String)))).getD
      (mapToolName "unknown" []) :=
  c6_last_toolcall_wins c6Conversation []
    (AiMessage.mk AiRole.tool (AiContent.parts
      [AiPart.toolResult "X" "beta" (AiToolOutput.text "")]))
    (by decide)
    (AiPart.toolResult "X" "beta" (AiToolOutput.text ""))
    (by decide) "X" "beta" (AiToolOutput.text "") rfl

/-- C6 counterexample: in `c6Conversation` the `ToolResult` for callId `X`
is preceded by a `ToolCall` named `alpha` and followed by one named `beta`;
the claim demands the most recent EARLIER call (`alpha`), but the
translation resolves it to `beta`, the last call overall. -/
theorem c6_later_call_overrides :
    messagesToAiSdkMessages c6Conversation [] =
      [AiMessage.mk AiRole.assistant
        (AiContent.parts [AiPart.toolCall "X" "alpha" "inp1"]),
       AiMessage.mk AiRole.tool
        (AiContent.parts [AiPart.toolResult "X" "beta" (AiToolOutput.text "")]),
       AiMessage.mk AiRole.assistant
        (AiContent.parts [AiPart.toolCall "X" "beta" "inp2"])] ∧
    "beta" ≠ "alpha" := by
  decide

/-- C3 (amended): a User turn emits zero provider messages exactly when its
parts produce neither user content nor tool results; an Assistant turn
always emits exactly one assistant message, even when its translated content
is empty (it is then the empty string). -/
theorem c3_turn_emission (message : LMMessage)
    (byCallId nameMap : List (String × String)) :
    (message.role = Role.user →
      (mapVsCodeMessageToAiSdkMessages message byCallId nameMap = [] ↔
        (classifiedParts true byCallId nameMap message.content).1 = [] ∧
        (classifiedParts true byCallId nameMap message.content).2.1 = [])) ∧
    (message.role = Role.assistant →
      ∃ c, mapVsCodeMessageToAiSdkMessages message byCallId nameMap =
        [AiMessage.mk AiRole.assistant c]) := by
  constructor
  · intro hrole
    unfold mapVsCodeMessageToAiSdkMessages
    rw [hrole]
    simp only [roleIsUser, if_true]
    constructor
    · intro h
      rw [List.append_eq_nil] at h
      constructor
      · by_cases he : (classifiedParts true byCallId nameMap message.content).1.isEmpty
        · simpa [List.isEmpty_iff] using he
        · rw [if_neg he] at h
          exact absurd h.1 (by simp)
      · by_cases he : (classifiedParts true byCallId nameMap message.content).2.1.isEmpty
        · simpa [List.isEmpty_iff] using he
        · rw [if_neg he] at h
          exact absurd h.2 (by simp)
    · intro ⟨h1, h2⟩
      rw [if_pos (by simpa [List.isEmpty_iff] using h1),
        if_pos (by simpa [List.isEmpty_iff] using h2)]
      rfl
  · intro hrole
    unfold mapVsCodeMessageToAiSdkMessages
    rw [hrole]
    exact ⟨_, rfl⟩

/-- Witness for C3 (amended): a User turn with only an unknown (dropped)
part emits nothing, while an Assistant turn emits one assistant message. -/
theorem c3_turn_emission_witness :
    mapVsCodeMessageToAiSdkMessages
      (LMMessage.mk Role.user [LMPart.unknownPart]) [] [] = [] ∧
    ∃ c, mapVsCodeMessageToAiSdkMessages
      (LMMessage.mk Role.assistant [LMPart.text "hi"]) [] [] =
        [AiMessage.mk AiRole.assistant c] :=
  ⟨((c3_turn_emission (LMMessage.mk Role.user [LMPart.unknownPart]) [] []).1
      rfl).mpr (by decide),
   (c3_turn_emission (LMMessage.mk Role.assistant [LMPart.text "hi"]) [] []).2 rfl⟩

/-- C3 counterexample: an Assistant turn with an empty content list still
contributes one provider message (an assistant message with empty string
content), refuting "turns producing no content emit nothing" for the
assistant role. -/
theorem c3_empty_assistant_still_emits :
    mapVsCodeMessageToAiSdkMessages (LMMessage.mk Role.assistant []) [] [] =
      [AiMessage.mk AiRole.assistant (AiContent.str "")] ∧
    mapVsCodeMessageToAiSdkMessages (LMMessage.mk Role.assistant []) [] [] ≠ [] := by
  decide

theorem except_map_ok {ε α β : Type} (f : α → β) (x : Except ε α) (b : β)
    (h : x.map f = Except.ok b) : ∃ a, x = Except.ok a ∧ b = f a := by
  cases x with
  | error e => simp [Except.map] at h
  | ok a => exact ⟨a, rfl, by simpa [Except.map] using h.symm⟩

theorem streamZenRun_ok (nm : List (String × String)) :
    ∀ (parts : List StreamPart) (emitted sawAny : Bool)
      (evs : List CallbackEvent),
      streamZenRun nm parts emitted sawAny = Except.ok evs →
      evs = deliveredEventsSpec nm parts ++
        (if emitted || emitsContent parts then []
         else [CallbackEvent.textDelta
           (if sawAny || !parts.isEmpty then "\n"
            else "No response returned by model.")]) := by
  intro parts
  induction parts with
  | nil =>
    intro emitted sawAny evs h
    unfold streamZenRun at h
    cases emitted <;> simp_all [deliveredEventsSpec, emitsContent]
  | cons p rest ih =>
    intro emitted sawAny evs h
    cases p with
    | textDelta t =>
      rw [show streamZenRun nm (StreamPart.textDelta t :: rest) emitted sawAny =
        (streamZenRun nm rest (emitted || decide (t.length > 0)) true).map
          (fun evs => CallbackEvent.textDelta t :: evs) from rfl] at h
      obtain ⟨evs', hx, rfl⟩ := except_map_ok _ _ _ h
      rw [ih _ _ _ hx]
      cases emitted <;> cases ht : decide (t.length > 0) <;>
        simp [deliveredEventsSpec, emitsContent, List.any_cons, ht]
    | reasoningDelta t =>
      rw [show streamZenRun nm (StreamPart.reasoningDelta t :: rest) emitted sawAny =
        (if t.length > 0 then
          (streamZenRun nm rest true true).map
            (fun evs => CallbackEvent.textDelta t :: evs)
        else streamZenRun nm rest emitted true) from rfl] at h
      by_cases ht : t.length > 0
      · rw [if_pos ht] at h
        obtain ⟨evs', hx, rfl⟩ := except_map_ok _ _ _ h
        rw [ih _ _ _ hx]
        cases emitted <;>
          simp [deliveredEventsSpec, emitsContent, List.any_cons, ht]
      · rw [if_neg ht] at h
        rw [ih _ _ _ h]
        cases emitted <;>
          simp [deliveredEventsSpec, emitsContent, List.any_cons, ht]
    | toolCall callId name input =>
      rw [show streamZenRun nm (StreamPart.toolCall callId name input :: rest)
          emitted sawAny =
        (streamZenRun nm rest true true).map
          (fun evs => CallbackEvent.toolCall callId
            ((nm.lookup name).getD name) input :: evs) from rfl] at h
      obtain ⟨evs', hx, rfl⟩ := except_map_ok _ _ _ h
      rw [ih _ _ _ hx]
      cases emitted <;> simp [deliveredEventsSpec, emitsContent, List.any_cons]
    | errorPart msg =>
      rw [show streamZenRun nm (StreamPart.errorPart msg :: rest) emitted sawAny =
        Except.error (wrapApiError (wrapApiError msg).message) from rfl] at h
      simp at h
    | finishOrMeta =>
      rw [show streamZenRun nm (StreamPart.finishOrMeta :: rest) emitted sawAny =
        streamZenRun nm rest emitted true from rfl] at h
      rw [ih _ _ _ h]
      cases emitted <;> simp [deliveredEventsSpec, emitsContent, List.any_cons]

theorem emitsContent_false_iff (nm : List (String × String)) :
    ∀ parts, emitsContent parts = false ↔
      ∀ ev ∈ deliveredEventsSpec nm parts,
        ∃ s, ev = CallbackEvent.textDelta s ∧ s.length = 0 := by
  intro parts
  induction parts with
  | nil => simp [emitsContent, deliveredEventsSpec]
  | cons p rest ih =>
    cases p with
    | textDelta t =>
      simp only [emitsContent, List.any_cons, deliveredEventsSpec,
        Bool.or_eq_false_iff, decide_eq_false_iff_not, List.mem_cons] at *
      constructor
      · rintro ⟨ht, hrest⟩ ev hev
        rcases hev with rfl | hev
        · exact ⟨t, rfl, by omega⟩
        · exact ih.mp hrest ev hev
      · intro hall
        refine ⟨?_, ih.mpr (fun ev hev => hall ev (Or.inr hev))⟩
        obtain ⟨s, hs, hlen⟩ := hall _ (Or.inl rfl)
        obtain rfl : t = s := by simpa using hs
        omega
    | reasoningDelta t =>
      simp only [emitsContent, List.any_cons, deliveredEventsSpec,
        Bool.or_eq_false_iff, decide_eq_false_iff_not] at *
      by_cases ht : t.length > 0
      · rw [if_pos ht]
        simp only [List.mem_cons]
        constructor
        · rintro ⟨hlen, -⟩
          omega
        · intro hall
          obtain ⟨s, hs, hlen⟩ := hall _ (Or.inl rfl)
          obtain rfl : t = s := by simpa using hs
          omega
      · rw [if_neg ht]
        constructor
        · rintro ⟨-, hrest⟩
          exact ih.mp hrest
        · intro hall
          exact ⟨by omega, ih.mpr hall⟩
    | toolCall callId name input =>
      simp only [emitsContent, List.any_cons, deliveredEventsSpec] at *
      constructor
      · intro h
        simp at h
      · intro hall
        obtain ⟨s, hs, -⟩ := hall _ (List.mem_cons_self _ _)
        exact absurd hs (by simp)
    | errorPart msg =>
      simpa [emitsContent, List.any_cons, deliveredEventsSpec] using ih
    | finishOrMeta =>
      simpa [emitsContent, List.any_cons, deliveredEventsSpec] using ih

/-- C4: for every event stream the adapter runs to completion without error,
if the loop emitted no content — equivalently, by the last conjunct, every
delivery was an empty text delta, so in particular no non-empty text delta
and no tool call was delivered — then the delivered events are exactly the
per-event deliveries followed by ONE fallback text: a single newline when at
least one raw event was observed, the fixed no-response string when the
stream was totally empty.  If any content was emitted, the deliveries are
exactly the per-event deliveries, with no fallback. -/
theorem c4_fallback_exactly_once (toolNameMap : List (String × String))
    (parts : List StreamPart) (evs : List CallbackEvent)
    (h : streamZen toolNameMap parts = Except.ok evs) :
    (emitsContent parts = false →
      evs = deliveredEventsSpec toolNameMap parts ++
        [CallbackEvent.textDelta
          (if parts.isEmpty then "No response returned by model." else "\n")]) ∧
    (emitsContent parts = true →
      evs = deliveredEventsSpec toolNameMap parts) ∧
    (emitsContent parts = false ↔
      ∀ ev ∈ deliveredEventsSpec toolNameMap parts,
        ∃ s, ev = CallbackEvent.textDelta s ∧ s.length = 0) := by
  have hrun := streamZenRun_ok toolNameMap parts false false evs h
  refine ⟨?_, ?_, emitsContent_false_iff toolNameMap parts⟩
  · intro hc
    rw [hrun, hc]
    cases parts <;> simp
  · intro hc
    rw [hrun, hc]
    simp

/-- Witness for C4: a stream with one ignored metadata event gets exactly
the newline fallback; the totally empty stream gets the fixed no-response
message. -/
theorem c4_fallback_exactly_once_witness :
    ([CallbackEvent.textDelta "\n"] : List CallbackEvent) =
      deliveredEventsSpec [] [StreamPart.finishOrMeta] ++
        [CallbackEvent.textDelta
          (if ([StreamPart.finishOrMeta] : List StreamPart).isEmpty then
            "No response returned by model." else "\n")] ∧
    ([CallbackEvent.textDelta "No response returned by model."] :
        List CallbackEvent) =
      deliveredEventsSpec [] [] ++
        [CallbackEvent.textDelta
          (if ([] : List StreamPart).isEmpty then
            "No response returned by model." else "\n")] :=
  ⟨(c4_fallback_exactly_once [] [StreamPart.finishOrMeta]
      [CallbackEvent.textDelta "\n"] rfl).1 (by decide),
   (c4_fallback_exactly_once [] []
      [CallbackEvent.textDelta "No response returned by model."]
      rfl).1 (by decide)⟩

theorem anthropicUpdater_role (cc : CacheControl) (m : CMessage) :
    (anthropicUpdater cc m).role = m.role := by
  unfold anthropicUpdater
  split
  · split
    · rfl
    · rfl
  · rfl

theorem anthropicUpdater_idem (cc : CacheControl) (m : CMessage) :
    anthropicUpdater cc (anthropicUpdater cc m) = anthropicUpdater cc m := by
  cases hpo : m.providerOptions with
  | none =>
    simp [anthropicUpdater, mergeProviderOptionsAnthropic, hpo]
  | some b =>
    cases hba : b.anthropic with
    | none =>
      simp [anthropicUpdater, mergeProviderOptionsAnthropic, hpo, hba]
    | some a =>
      by_cases hfl : (a.cacheControl.isSome || a.cache_control.isSome) = true
      · simp [anthropicUpdater, hpo, hba, hfl]
      · simp [anthropicUpdater, mergeProviderOptionsAnthropic, hpo, hba, hfl]

theorem openaiCompatibleUpdater_role (m : CMessage) :
    (openaiCompatibleUpdater m).role = m.role := by
  unfold openaiCompatibleUpdater
  split
  · split
    · rfl
    · rfl
  · rfl

theorem openaiCompatibleUpdater_idem (m : CMessage) :
    openaiCompatibleUpdater (openaiCompatibleUpdater m) =
      openaiCompatibleUpdater m := by
  cases hpo : m.providerOptions with
  | none =>
    simp [openaiCompatibleUpdater, mergeProviderOptionsOpenaiSet, hpo]
  | some b =>
    cases hbo : b.openaiCompatible with
    | none =>
      simp [openaiCompatibleUpdater, mergeProviderOptionsOpenaiSet, hpo, hbo]
    | some o =>
      by_cases hfl : o.cache_control.isSome = true
      · simp [openaiCompatibleUpdater, hpo, hbo, hfl]
      · simp [openaiCompatibleUpdater, mergeProviderOptionsOpenaiSet, hpo, hbo, hfl]

theorem stripOpenaiCacheControl_idem (m : CMessage) :
    stripOpenaiCacheControl (stripOpenaiCacheControl m) =
      stripOpenaiCacheControl m := by
  cases hpo : m.providerOptions with
  | none => simp [stripOpenaiCacheControl, hpo]
  | some b =>
    cases hbo : b.openaiCompatible with
    | none => simp [stripOpenaiCacheControl, hpo, hbo]
    | some o =>
      cases hcc : o.cache_control with
      | none => simp [stripOpenaiCacheControl, hpo, hbo, hcc]
      | some cc =>
        simp [stripOpenaiCacheControl, mergeProviderOptionsOpenaiClear, hpo, hbo, hcc]

theorem filterIdx_enumFrom (q : String → Bool) (msgs : List CMessage) :
    ∀ n : Nat,
      ((List.enumFrom n msgs).filter (fun p => q p.2.role)).map Prod.fst =
      ((List.enumFrom n (msgs.map CMessage.role)).filter (fun p => q p.2)).map
        Prod.fst := by
  induction msgs with
  | nil => intro n; rfl
  | cons m rest ih =>
    intro n
    rw [show List.enumFrom n (m :: rest) = (n, m) :: List.enumFrom (n + 1) rest
      from rfl]
    rw [show (m :: rest).map CMessage.role =
      m.role :: rest.map CMessage.role from rfl]
    rw [show List.enumFrom n (m.role :: rest.map CMessage.role) =
      (n, m.role) :: List.enumFrom (n + 1) (rest.map CMessage.role) from rfl]
    rw [List.filter_cons, List.filter_cons]
    by_cases hq : q m.role = true
    · simp only [hq, if_true, List.map_cons, ih]
    · simp only [Bool.not_eq_true] at hq
      simp only [hq, Bool.false_eq_true, if_false, ih]

theorem selectedIndices_congr (msgs1 msgs2 : List CMessage)
    (h : msgs1.map CMessage.role = msgs2.map CMessage.role) :
    selectedIndices msgs1 = selectedIndices msgs2 := by
  unfold selectedIndices
  rw [show msgs1.enum = List.enumFrom 0 msgs1 from rfl,
    show msgs2.enum = List.enumFrom 0 msgs2 from rfl]
  rw [filterIdx_enumFrom (fun r => r == "system") msgs1 0,
    filterIdx_enumFrom (fun r => r == "system") msgs2 0,
    filterIdx_enumFrom (fun r => !(r == "system")) msgs1 0,
    filterIdx_enumFrom (fun r => !(r == "system")) msgs2 0, h]

theorem map_role_mapIdx (l : List CMessage) :
    ∀ f : Nat → CMessage → CMessage, (∀ i m, (f i m).role = m.role) →
      (l.mapIdx f).map CMessage.role = l.map CMessage.role := by
  induction l with
  | nil => intro f _; rfl
  | cons m rest ih =>
    intro f hf
    rw [List.mapIdx_cons]
    simp only [List.map_cons]
    rw [hf 0 m, ih (fun i => f (i + 1)) (fun i m => hf (i + 1) m)]

theorem mapIdx_mapIdx (l : List CMessage) :
    ∀ f g : Nat → CMessage → CMessage,
      (l.mapIdx g).mapIdx f = l.mapIdx (fun i a => f i (g i a)) := by
  induction l with
  | nil => intro f g; rfl
  | cons m rest ih =>
    intro f g
    rw [List.mapIdx_cons, List.mapIdx_cons, List.mapIdx_cons]
    rw [ih (fun i => f (i + 1)) (fun i => g (i + 1))]

theorem applyCacheControlToMessages_roles (msgs : List CMessage)
    (u : CMessage → CMessage) (hrole : ∀ m, (u m).role = m.role) :
    (applyCacheControlToMessages msgs u).map CMessage.role =
      msgs.map CMessage.role := by
  rw [show applyCacheControlToMessages msgs u =
    (if (selectedIndices msgs).isEmpty then msgs
     else msgs.mapIdx
       (fun i m => if (selectedIndices msgs).contains i then u m else m)) from rfl]
  split
  · rfl
  · exact map_role_mapIdx msgs _ (fun i m => by
      by_cases hc : (selectedIndices msgs).contains i = true
      · simp only [hc, if_true]; exact hrole m
      · simp only [Bool.not_eq_true] at hc
        simp only [hc, Bool.false_eq_true, if_false])

theorem applyCacheControl_idem (u : CMessage → CMessage)
    (hrole : ∀ m, (u m).role = m.role) (hidem : ∀ m, u (u m) = u m)
    (msgs : List CMessage) :
    applyCacheControlToMessages (applyCacheControlToMessages msgs u) u =
      applyCacheControlToMessages msgs u := by
  have hselEq : selectedIndices (applyCacheControlToMessages msgs u) =
      selectedIndices msgs :=
    selectedIndices_congr _ _ (applyCacheControlToMessages_roles msgs u hrole)
  by_cases he : (selectedIndices msgs).isEmpty = true
  · have hA : applyCacheControlToMessages msgs u = msgs := by
      rw [show applyCacheControlToMessages msgs u =
        (if (selectedIndices msgs).isEmpty then msgs
         else msgs.mapIdx
           (fun i m => if (selectedIndices msgs).contains i then u m else m)) from rfl]
      rw [if_pos he]
    rw [hA, hA]
  · have hA : applyCacheControlToMessages msgs u =
        msgs.mapIdx (fun i m =>
          if (selectedIndices msgs).contains i then u m else m) := by
      rw [show applyCacheControlToMessages msgs u =
        (if (selectedIndices msgs).isEmpty then msgs
         else msgs.mapIdx
           (fun i m => if (selectedIndices msgs).contains i then u m else m)) from rfl]
      rw [if_neg he]
    rw [show applyCacheControlToMessages (applyCacheControlToMessages msgs u) u =
      (if (selectedIndices (applyCacheControlToMessages msgs u)).isEmpty then
        applyCacheControlToMessages msgs u
      else (applyCacheControlToMessages msgs u).mapIdx
        (fun i m =>
          if (selectedIndices (applyCacheControlToMessages msgs u)).contains i then
            u m
          else m)) from rfl]
    rw [hselEq, if_neg he]
    conv_lhs => rw [hA]
    rw [mapIdx_mapIdx]
    rw [show (fun (i : Nat) (a : CMessage) =>
        if (selectedIndices msgs).contains i then
          u (if (selectedIndices msgs).contains i then u a else a)
        else if (selectedIndices msgs).contains i then u a else a) =
      (fun (i : Nat) (m : CMessage) =>
        if (selectedIndices msgs).contains i then u m else m) from ?_]
    · rw [← hA]
    · funext i m
      by_cases hc : (selectedIndices msgs).contains i = true
      · simp only [hc, if_true]
        exact hidem m
      · simp only [Bool.not_eq_true] at hc
        simp only [hc, Bool.false_eq_true, if_false]

theorem isEmpty_of_length_eq (l1 l2 : List CMessage)
    (h : l1.length = l2.length) : l1.isEmpty = l2.isEmpty := by
  cases l1 <;> cases l2 <;> simp_all

theorem applyCacheControlToMessages_length (msgs : List CMessage)
    (u : CMessage → CMessage) :
    (applyCacheControlToMessages msgs u).length = msgs.length := by
  rw [show applyCacheControlToMessages msgs u =
    (if (selectedIndices msgs).isEmpty then msgs
     else msgs.mapIdx
       (fun i m => if (selectedIndices msgs).contains i then u m else m)) from rfl]
  split
  · rfl
  · simp

theorem applyAnthropicCacheControl_idem (msgs : List CMessage)
    (cc : CacheControl) :
    applyAnthropicCacheControl (applyAnthropicCacheControl msgs cc) cc =
      applyAnthropicCacheControl msgs cc := by
  have hstep : ∀ l : List CMessage, applyAnthropicCacheControl l cc =
      (if l.isEmpty then l
       else applyCacheControlToMessages l (anthropicUpdater cc)) :=
    fun l => rfl
  by_cases he : msgs.isEmpty = true
  · have hA : applyAnthropicCacheControl msgs cc = msgs := by
      rw [hstep, if_pos he]
    rw [hA, hA]
  · have he' : msgs.isEmpty = false := by simpa using he
    have hA : applyAnthropicCacheControl msgs cc =
        applyCacheControlToMessages msgs (anthropicUpdater cc) := by
      rw [hstep, if_neg he]
    have he2 : (applyAnthropicCacheControl msgs cc).isEmpty = false := by
      rw [hA]
      exact (isEmpty_of_length_eq _ _
        (applyCacheControlToMessages_length msgs _)).trans he'
    rw [hstep (applyAnthropicCacheControl msgs cc), he2]
    simp only [Bool.false_eq_true, if_false]
    rw [hA]
    exact applyCacheControl_idem (anthropicUpdater cc)
      (anthropicUpdater_role cc) (anthropicUpdater_idem cc) msgs

theorem applyOpenAICompatibleCacheControl_idem (msgs : List CMessage) :
    applyOpenAICompatibleCacheControl (applyOpenAICompatibleCacheControl msgs) =
      applyOpenAICompatibleCacheControl msgs := by
  have hstep : ∀ l : List CMessage, applyOpenAICompatibleCacheControl l =
      (if l.isEmpty then l
       else applyCacheControlToMessages l openaiCompatibleUpdater) :=
    fun l => rfl
  by_cases he : msgs.isEmpty = true
  · have hA : applyOpenAICompatibleCacheControl msgs = msgs := by
      rw [hstep, if_pos he]
    rw [hA, hA]
  · have he' : msgs.isEmpty = false := by simpa using he
    have hA : applyOpenAICompatibleCacheControl msgs =
        applyCacheControlToMessages msgs openaiCompatibleUpdater := by
      rw [hstep, if_neg he]
    have he2 : (applyOpenAICompatibleCacheControl msgs).isEmpty = false := by
      rw [hA]
      exact (isEmpty_of_length_eq _ _
        (applyCacheControlToMessages_length msgs _)).trans he'
    rw [hstep (applyOpenAICompatibleCacheControl msgs), he2]
    simp only [Bool.false_eq_true, if_false]
    rw [hA]
    exact applyCacheControl_idem openaiCompatibleUpdater
      openaiCompatibleUpdater_role openaiCompatibleUpdater_idem msgs

theorem removeOpenAICompatibleCacheControl_idem (msgs : List CMessage) :
    removeOpenAICompatibleCacheControl (removeOpenAICompatibleCacheControl msgs) =
      removeOpenAICompatibleCacheControl msgs := by
  have hstep : ∀ l : List CMessage, removeOpenAICompatibleCacheControl l =
      (if l.isEmpty then l else l.map stripOpenaiCacheControl) :=
    fun l => rfl
  by_cases he : msgs.isEmpty = true
  · have hA : removeOpenAICompatibleCacheControl msgs = msgs := by
      rw [hstep, if_pos he]
    rw [hA, hA]
  · have he' : msgs.isEmpty = false := by simpa using he
    have hA : removeOpenAICompatibleCacheControl msgs =
        msgs.map stripOpenaiCacheControl := by
      rw [hstep, if_neg he]
    have he2 : (removeOpenAICompatibleCacheControl msgs).isEmpty = false := by
      rw [hA]
      exact (isEmpty_of_length_eq _ _ (List.length_map _ _)).trans he'
    rw [hstep (removeOpenAICompatibleCacheControl msgs), he2]
    simp only [Bool.false_eq_true, if_false]
    rw [hA, List.map_map]
    exact List.map_congr_left (fun m _ => stripOpenaiCacheControl_idem m)

/-- C7: the prompt cache annotator is idempotent — for every message list,
backend dialect, model id and cache configuration, applying the annotation
dispatch twice yields exactly the same message list as applying it once
(messages already carrying the dialect's cache marker are skipped by the
second pass). -/
theorem c7_annotator_idempotent (promptCachingEnabled : Bool)
    (anthropicTtl : String) (providerNpm : Option String) (modelId : String)
    (messages : List CMessage) :
    annotateMessages promptCachingEnabled anthropicTtl providerNpm modelId
      (annotateMessages promptCachingEnabled anthropicTtl providerNpm modelId
        messages) =
    annotateMessages promptCachingEnabled anthropicTtl providerNpm modelId
      messages := by
  unfold annotateMessages
  by_cases h1 : (promptCachingEnabled && (providerNpm == some "@ai-sdk/anthropic")) = true
  · rw [if_pos h1, if_pos h1]
    exact applyAnthropicCacheControl_idem messages _
  · rw [if_neg h1, if_neg h1]
    by_cases h2 : (promptCachingEnabled &&
        (providerNpm == some "@ai-sdk/openai-compatible")) = true
    · rw [if_pos h2, if_pos h2]
      by_cases h3 : isGlm47ModelId modelId = true
      · rw [if_pos h3, if_pos h3]
        exact removeOpenAICompatibleCacheControl_idem messages
      · rw [if_neg h3, if_neg h3]
        exact applyOpenAICompatibleCacheControl_idem messages
    · rw [if_neg h2, if_neg h2]
      by_cases h4 : (providerNpm == some "@ai-sdk/openai-compatible") = true
      · rw [if_pos h4, if_pos h4]
        exact removeOpenAICompatibleCacheControl_idem messages
      · rw [if_neg h4, if_neg h4]

theorem runToolLoopGo_succ (t : Nat → List SelfTestPart) (i fuel : Nat) :
    runToolLoopGo t i (fuel + 1) =
      (if (toolCallsOf (t i)).isEmpty then (i + 1, ToolLoopOutcome.success)
       else
        match (toolCallsOf (t i)).find? (fun c => !(c.1 == selfTestToolName)) with
        | some c => (i + 1, ToolLoopOutcome.unexpectedToolCall c.1)
        | none => runToolLoopGo t (i + 1) fuel) := rfl

theorem find?_mismatch_none (l : List (String × String × String))
    (h : ∀ c ∈ l, c.1 = selfTestToolName) :
    l.find? (fun c => !(c.1 == selfTestToolName)) = none := by
  rw [List.find?_eq_none]
  intro c hc
  simp [h c hc]

theorem runToolLoopGo_success (t : Nat → List SelfTestPart) :
    ∀ (fuel i k : Nat), k < fuel →
      (∀ j, j < k → (toolCallsOf (t (i + j))).isEmpty = false) →
      (∀ j, j < k → ∀ c ∈ toolCallsOf (t (i + j)), c.1 = selfTestToolName) →
      (toolCallsOf (t (i + k))).isEmpty = true →
      runToolLoopGo t i fuel = (i + k + 1, ToolLoopOutcome.success) := by
  intro fuel
  induction fuel with
  | zero =>
    intro i k hk
    exact absurd hk (Nat.not_lt_zero k)
  | succ fuel ih =>
    intro i k hk hne hnames hemp
    cases k with
    | zero =>
      rw [runToolLoopGo_succ, if_pos (by simpa using hemp)]
    | succ k2 =>
      have hne0 : (toolCallsOf (t i)).isEmpty = false := by
        simpa using hne 0 (Nat.succ_pos k2)
      rw [runToolLoopGo_succ, if_neg (by simp [hne0])]
      rw [find?_mismatch_none _ (by simpa using hnames 0 (Nat.succ_pos k2))]
      have h2 := ih (i + 1) k2 (by omega)
        (fun j hj => by
          have := hne (j + 1) (by omega)
          rw [show i + 1 + j = i + (j + 1) from by omega]
          exact this)
        (fun j hj => by
          have := hnames (j + 1) (by omega)
          rw [show i + 1 + j = i + (j + 1) from by omega]
          exact this)
        (by
          rw [show i + 1 + k2 = i + (k2 + 1) from by omega]
          exact hemp)
      rw [h2]
      rw [show i + 1 + k2 + 1 = i + (k2 + 1) + 1 from by omega]

theorem runToolLoopGo_limit (t : Nat → List SelfTestPart) :
    ∀ (fuel i : Nat),
      (∀ j, j < fuel → (toolCallsOf (t (i + j))).isEmpty = false ∧
        ∀ c ∈ toolCallsOf (t (i + j)), c.1 = selfTestToolName) →
      runToolLoopGo t i fuel = (i + fuel, ToolLoopOutcome.iterationLimit) := by
  intro fuel
  induction fuel with
  | zero => intro i _; rfl
  | succ fuel ih =>
    intro i h
    have h0 := h 0 (Nat.succ_pos fuel)
    rw [runToolLoopGo_succ, if_neg (by simp [(by simpa using h0.1 :
      (toolCallsOf (t i)).isEmpty = false)])]
    rw [find?_mismatch_none _ (by simpa using h0.2)]
    rw [ih (i + 1) (fun j hj => by
      have := h (j + 1) (by omega)
      rw [show i + 1 + j = i + (j + 1) from by omega]
      exact this)]
    rw [show i + 1 + fuel = i + (fuel + 1) from by omega]

/-- C9 (amended): over transcripts whose tool calls all use the expected
diagnostic tool name, the driver issues one request per iteration and
terminates successfully at the first iteration yielding zero tool calls
(k + 1 requests when 0-based iteration k is the first such, so exactly 3
requests when iteration 3 is the first); when every iteration yields a tool
call, it fails with the iteration-limit error after exactly 5 requests,
never issuing a 6th.  A tool call with any other name instead fails the run
immediately with the mismatch error (see the counterexample). -/
theorem c9_driver_termination (transcript : Nat → List SelfTestPart)
    (hnames : ∀ i, i < 5 →
      ∀ c ∈ toolCallsOf (transcript i), c.1 = selfTestToolName) :
    (∀ k, k < 5 →
      (∀ j, j < k → (toolCallsOf (transcript j)).isEmpty = false) →
      (toolCallsOf (transcript k)).isEmpty = true →
      runToolLoop transcript = (k + 1, ToolLoopOutcome.success)) ∧
    ((∀ i, i < 5 → (toolCallsOf (transcript i)).isEmpty = false) →
      runToolLoop transcript = (5, ToolLoopOutcome.iterationLimit)) := by
  constructor
  · intro k hk hne hemp
    have := runToolLoopGo_success transcript 5 0 k hk
      (fun j hj => by simpa using hne j hj)
      (fun j hj => by simpa using hnames j (by omega))
      (by simpa using hemp)
    simpa [runToolLoop] using this
  · intro hall
    have := runToolLoopGo_limit transcript 5 0
      (fun j hj => ⟨by simpa using hall j (by omega),
        by simpa using hnames j (by omega)⟩)
    simpa [runToolLoop] using this

/-- Witness for C9 (amended): on a transcript whose first two iterations
call the diagnostic tool and whose third yields no tool call, the driver
succeeds after exactly 3 requests; on a transcript where every iteration
calls the diagnostic tool, it fails with the iteration limit after exactly
5 requests. -/
theorem c9_driver_termination_witness :
    runToolLoop c9GoodTranscript = (3, ToolLoopOutcome.success) ∧
    runToolLoop c9AllCallsTranscript = (5, ToolLoopOutcome.iterationLimit) :=
  ⟨(c9_driver_termination c9GoodTranscript
      (by intro i hi; interval_cases i <;> decide)).1 2 (by omega)
      (by intro j hj; interval_cases j <;> decide) (by decide),
   (c9_driver_termination c9AllCallsTranscript
      (by
        intro i _ c hc
        simp [c9AllCallsTranscript, toolCallsOf] at hc
        rw [hc])).2
      (fun i _ => rfl)⟩

/-- C9 counterexample: a transcript where every iteration yields a tool call
(named `badTool`) makes the driver fail after exactly 1 request with the
unexpected-tool-call error, not after 5 requests with the iteration-limit
error as the claim states. -/
theorem c9_mismatch_fails_early :
    (toolCallsOf (c9BadTranscript 0)).isEmpty = false ∧
    (toolCallsOf (c9BadTranscript 1)).isEmpty = false ∧
    (toolCallsOf (c9BadTranscript 2)).isEmpty = false ∧
    (toolCallsOf (c9BadTranscript 3)).isEmpty = false ∧
    (toolCallsOf (c9BadTranscript 4)).isEmpty = false ∧
    runToolLoop c9BadTranscript =
      (1, ToolLoopOutcome.unexpectedToolCall "badTool") ∧
    runToolLoop c9BadTranscript ≠ (5, ToolLoopOutcome.iterationLimit) := by
  decide

end OpenCodeZen
